import Mathlib

/- Shallow embedding of the conversation store and editing engine of the
   anychat desktop chat client (`src/main/ui`).

   The embedding covers:
   - the message data model and its (de)serialization to the flat record
     format persisted in chat JSON files (`ChatMessageWidget.get_message_dict`,
     `ChatMessageWidget.set_message`, the record-reading loop of
     `MainWindow._load_chat_from_file`);
   - chat-file persistence (`ChatHistoryManager.load_chat` / `save_chat`,
     `MainWindow._save_current_chat`);
   - the message-sequence editing operations (`_handle_cut_pair`,
     `_handle_regenerate_message`, `_handle_regenerate_user_message`,
     `_build_messages_list`);
   - the single-flight asynchronous generation orchestration
     (`handle_send_message`, `_call_llm_and_update_widget`, the
     completion handlers, the `_llm_call_in_progress` flag);
   - project-tree moves (`_projects_tree_drop_event`, `_move_chat_file`,
     `_move_project_directory`);
   - the generation service (`LLMService.get_response`, `LLMWorker.run`).

   GUI plumbing (widget sizing, signals, icons, drag pixmaps) is abstracted
   away: a displayed `ChatMessageWidget` is represented by its observable
   state (role, content, model), and the `QListWidget` holding the
   conversation by the list of those states. -/

namespace AnyChat

/-- Message roles as used throughout the UI layer: the persisted roles
`system`, `user`, `assistant`, and the transient placeholder role
`thinking` shown while a generation request is outstanding. -/
inductive Role
  | system
  | user
  | assistant
  | thinking
  deriving DecidableEq, Repr

/-- A message, or equally the observable state of one `ChatMessageWidget`:
a role, a content string and an optional model identifier (the widget
stores a model only for assistant messages). The same shape also stands
for one record of the persisted JSON array, whose keys are `role`,
`content` and the optional `model`. -/
structure Msg where
  role : Role
  content : String
  model : Option String := none
  deriving DecidableEq, Repr

/-- Python `str.strip()`: remove leading and trailing whitespace. Defined
over the character list because `String.trim` does not reduce in the
kernel. -/
def pyStrip (s : String) : String :=
  ⟨((s.data.dropWhile Char.isWhitespace).reverse.dropWhile Char.isWhitespace).reverse⟩

/-- The state a `ChatMessageWidget` takes after `set_message(role, content,
item, model)`: the model argument is stored only when the role is
`assistant` (`self.model = model if role == "assistant" else None`). -/
def set_message (role : Role) (content : String) (model : Option String) : Msg :=
  { role := role, content := content,
    model := if role = Role.assistant then model else none }

/-- Serialization of a widget into a persisted record,
`ChatMessageWidget.get_message_dict`: the record always carries `role` and
`content`, and carries `model` only when the widget is an assistant
message whose `self.model` is truthy (neither `None` nor the empty
string): `if self.role == "assistant" and self.model: message["model"] =
self.model`. -/
def get_message_dict (w : Msg) : Msg :=
  { role := w.role, content := w.content,
    model := match w.role, w.model with
      | Role.assistant, some s => if s = "" then none else some s
      | _, _ => none }

/-- Deserialization of a persisted record into a displayed widget, as done
by the loading loop of `MainWindow._load_chat_from_file`: `model =
message.get("model") if role == "assistant" else None` followed by
`set_message`. -/
def record_to_widget (r : Msg) : Msg :=
  set_message r.role r.content (if r.role = Role.assistant then r.model else none)

/-- Well-formedness of a message as the UI itself maintains it: a model is
stored only on assistant messages (`set_message` nulls it otherwise), and
a stored model is never the empty string (an empty model is "unknown" and
is dropped by `get_message_dict`). -/
def MsgWf (m : Msg) : Prop :=
  (m.role ≠ Role.assistant → m.model = none) ∧ m.model ≠ some ""

instance (m : Msg) : Decidable (MsgWf m) := by
  unfold MsgWf
  infer_instance

/-- The transient widget state produced by `set_message("thinking", "...",
item)` while a generation request is outstanding. -/
def thinkingMsg : Msg := set_message Role.thinking "..." none

/-- Embedding of `MainWindow._save_current_chat`, as a function of the pieces of state
it reads: system messages are taken from `self.current_messages` (they
are never displayed), then every displayed widget whose role is `user` or
`assistant` is serialized with `get_message_dict` (so `thinking` bubbles
are skipped), and finally the stripped text of the message input is
appended as a trailing user message when non-empty. The returned list is
what is written to the chat file and becomes the new
`self.current_messages`. -/
def save_current_chat (cur display : List Msg) (draft : String) : List Msg :=
  (cur.filter fun m => m.role = Role.system)
    ++ ((display.filter fun w =>
          w.role = Role.user ∨ w.role = Role.assistant).map get_message_dict)
    ++ (if pyStrip draft = "" then [] else [⟨Role.user, pyStrip draft, none⟩])

/-- The observable content of one chat file: missing, unreadable
(unparseable JSON or an `OSError` while reading), parseable JSON whose
payload is not a list (the raw payload kept for reference), or a JSON
array of message records. -/
inductive FileContent
  | missing
  | corrupt
  | notList (payload : String)
  | msgs (records : List Msg)
  deriving DecidableEq, Repr

/-- Embedding of `ChatHistoryManager.load_chat`, returning the loaded message list
together with the file content after the call: a missing file yields `[]`
and is eagerly created holding `[]` (`save_chat(file_path, [])`); an
unreadable file yields `[]` with the file untouched; a parseable non-list
payload yields `[]` with the file untouched; a list payload is returned
as is. -/
def load_chat : FileContent → List Msg × FileContent
  | FileContent.missing => ([], FileContent.msgs [])
  | FileContent.corrupt => ([], FileContent.corrupt)
  | FileContent.notList p => ([], FileContent.notList p)
  | FileContent.msgs l => (l, FileContent.msgs l)

/-- Embedding of `ChatHistoryManager.save_chat`: a full overwrite of the file with the
given message list, regardless of what the file held before. -/
def save_chat (_old : FileContent) (messages : List Msg) : FileContent :=
  FileContent.msgs messages

/-- Forward scan of the display for the first widget with the given role
at an index `≥ start`, as done by the `for i in range(start, count)` loops
of `_handle_cut_pair` and `_handle_regenerate_user_message`. -/
def scanFrom (r : Role) : List Msg → Nat → Option Nat
  | [], _ => none
  | m :: ms, 0 =>
      if m.role = r then some 0 else (scanFrom r ms 0).map Nat.succ
  | _ :: ms, s + 1 => (scanFrom r ms s).map Nat.succ

/-- Backward scan of the display for the nearest widget with role `user`
at an index `< i`, as done by the `for i in range(assistant_index - 1, -1,
-1)` loop of `_handle_regenerate_message`. -/
def scanBackUser (display : List Msg) : Nat → Option Nat
  | 0 => none
  | k + 1 =>
      match display.get? k with
      | some w => if w.role = Role.user then some k else scanBackUser display k
      | none => scanBackUser display k

/-- Embedding of `MainWindow._handle_cut_pair` on a display whose widget at `i` has
role `user`: find the first assistant widget after `i`; if found, remove
it first (the higher index) and then remove the user widget; otherwise
remove only the user widget. `_remove_message_at_index` is
`List.eraseIdx`. -/
def cut_pair (display : List Msg) (i : Nat) : List Msg :=
  match scanFrom Role.assistant display (i + 1) with
  | some j => (display.eraseIdx j).eraseIdx i
  | none => display.eraseIdx i

/-- Embedding of `MainWindow._build_messages_list` with exclusive end count `n` (the
sources all call it with `include_end=True`, so `n = end_index + 1`; for
`end_index = -1` the count is `0`): the system messages of
`current_messages` first, then the serialized dict of every displayed
widget with role `user` or `assistant` among the first `n`. -/
def build_messages_list (cur display : List Msg) (n : Nat) : List Msg :=
  (cur.filter fun m => m.role = Role.system)
    ++ ((display.take n).filter fun w =>
          w.role = Role.user ∨ w.role = Role.assistant).map get_message_dict

/-- The generation context built by `_handle_regenerate_message` when the
refine comment is empty: scan backward from the assistant widget at `i`
for the nearest preceding user widget at `j` and build the message list
through it (`end_index = j`, or `-1` when none is found, yielding only
the system messages). -/
def regenerate_context (cur display : List Msg) (i : Nat) : List Msg :=
  match scanBackUser display i with
  | some j => build_messages_list cur display (j + 1)
  | none => build_messages_list cur display 0

/-- The synthetic refine turn appended by `_handle_regenerate_message`
when the comment is non-empty: `f"{refine_prompt}\n\n{user_input}"` as a
user message. -/
def refine_turn (tmpl comment : String) : Msg :=
  ⟨Role.user, tmpl ++ "\n\n" ++ comment, none⟩

/-- Embedding of `MainWindow._load_chat_from_file` on a loaded record list `L`,
returning the populated display, the message-input draft and the new
`self.current_messages`: when the last record has role `user` it is held
back from the display and its content becomes the draft; system records
are never displayed; every displayed record becomes a widget via
`record_to_widget`. -/
def load_chat_from_file (L : List Msg) : List Msg × String × List Msg :=
  let toDisplay :=
    match L.getLast? with
    | some m => if m.role = Role.user then L.dropLast else L
    | none => L
  let draft :=
    match L.getLast? with
    | some m => if m.role = Role.user then m.content else ""
    | none => ""
  ((toDisplay.filter fun m => ¬ m.role = Role.system).map record_to_widget, draft, L)

/-- Loading a record list and immediately saving the resulting UI state:
the composition of `load_chat_from_file` with `save_current_chat`. -/
def load_then_save (L : List Msg) : List Msg :=
  let s := load_chat_from_file L
  save_current_chat s.2.2 s.1 s.2.1

/-- The pieces of `MainWindow` state the generation orchestration reads
and writes: the displayed widgets, the message-input text, the
`current_messages` cache, the backing chat file, the
`_llm_call_in_progress` flag and the position of the pending thinking
bubble (`_pending_llm_thinking_bubble` / `_pending_llm_widget`). -/
structure UiState where
  display : List Msg
  draft : String
  cur : List Msg
  file : FileContent
  inFlight : Bool
  pending : Option Nat
  deriving DecidableEq, Repr

/-- Result of issuing a generation request: `busy` when another call is in
progress (the warning dialog), `rejected` when the request is dropped for
another reason (empty input, invalid target, no following assistant
message), or `accepted` carrying the message list handed to the worker
thread. -/
inductive Outcome
  | busy
  | rejected
  | accepted (request : List Msg)
  deriving DecidableEq, Repr

/-- One `_save_current_chat` call inside the orchestration: recompute the
persisted list from the current state, overwrite the file, and replace
`current_messages` with it. -/
def doSave (st : UiState) : UiState :=
  let saved := save_current_chat st.cur st.display st.draft
  { st with cur := saved, file := save_chat st.file saved }

/-- Embedding of `MainWindow.handle_send_message` (with an active chat): refuse with
`busy` while a call is in progress; drop the request when the stripped
input is empty; otherwise append the user widget, clear the input, save,
append a thinking bubble, raise the in-flight flag and hand
`current_messages` to the worker. -/
def send_message (st : UiState) : UiState × Outcome :=
  if st.inFlight then (st, Outcome.busy)
  else
    let msgTxt := pyStrip st.draft
    if msgTxt = "" then (st, Outcome.rejected)
    else
      let disp1 := st.display ++ [set_message Role.user msgTxt none]
      let st1 := doSave { st with display := disp1, draft := "" }
      ({ st1 with display := disp1 ++ [thinkingMsg], inFlight := true,
                  pending := some disp1.length },
       Outcome.accepted st1.cur)

/-- Embedding of `MainWindow._handle_regenerate_message` for the assistant widget at
index `i` with refine comment `comment` (already stripped by
`RefineDialog.get_text`) and refine template `tmpl`
(`config_manager.get_refine_prompt()`), composed with the entry of
`_call_llm_and_update_widget`: a non-assistant target is dropped; a call
in progress yields `busy` with nothing changed; otherwise the context is
built (backward scan when the comment is empty, duplicate-through-`i`
plus the synthetic refine turn otherwise), the bubble at `i` turns into a
thinking bubble and the flag is raised. -/
def regenerate (tmpl : String) (st : UiState) (i : Nat) (comment : String) :
    UiState × Outcome :=
  match st.display.get? i with
  | none => (st, Outcome.rejected)
  | some w =>
      if w.role = Role.assistant then
        if st.inFlight then (st, Outcome.busy)
        else
          let ctx :=
            if comment = "" then regenerate_context st.cur st.display i
            else build_messages_list st.cur st.display (i + 1) ++ [refine_turn tmpl comment]
          ({ st with display := st.display.set i thinkingMsg, inFlight := true,
                     pending := some i },
           Outcome.accepted ctx)
      else (st, Outcome.rejected)

/-- Embedding of `MainWindow._handle_regenerate_user_message` for the user widget at
index `i`, composed with the entry of `_call_llm_and_update_widget`: find
the next assistant widget; none found is a no-op; a call in progress
yields `busy`; otherwise the context is every message through `i`, the
found assistant bubble turns into a thinking bubble and the flag is
raised. -/
def regenerate_from_user (st : UiState) (i : Nat) : UiState × Outcome :=
  match st.display.get? i with
  | none => (st, Outcome.rejected)
  | some w =>
      if w.role = Role.user then
        match scanFrom Role.assistant st.display (i + 1) with
        | none => (st, Outcome.rejected)
        | some j =>
            if st.inFlight then (st, Outcome.busy)
            else
              ({ st with display := st.display.set j thinkingMsg, inFlight := true,
                         pending := some j },
               Outcome.accepted (build_messages_list st.cur st.display (i + 1)))
      else (st, Outcome.rejected)

/-- Completion of an outstanding request on the control thread
(`_on_llm_response_received`, `_on_llm_error`,
`_on_send_message_response_received`, `_on_send_message_error`): the
pending thinking bubble is replaced in place by an assistant widget
holding the result text (the response on success, the error description
on failure) and the chat is saved; the `finally` block then always clears
the in-flight flag and the pending references. The `none` branch is the
defensive path where no pending bubble is left and only the `finally`
block has an effect. -/
def complete (st : UiState) (res : String) (mo : Option String) : UiState :=
  match st.pending with
  | some i =>
      let st1 := doSave { st with display := st.display.set i (set_message Role.assistant res mo) }
      { st1 with inFlight := false, pending := none }
  | none => { st with inFlight := false, pending := none }

/-- A path in the chat-history hierarchy, as the list of its name
components below the history root (so the root itself is `[]`). -/
abbrev FPath := List String

/-- The backing hierarchy: the set of directories (projects, the root
included) and the set of chat files, each identified by its path. -/
structure FS where
  dirs : List FPath
  files : List FPath
  deriving DecidableEq, Repr

/-- Basic consistency of the hierarchy: the root exists, no path is both
a directory and a file, and nothing lives below a file. -/
def FS.wf (fs : FS) : Prop :=
  [] ∈ fs.dirs ∧
  (∀ p ∈ fs.dirs, p ∉ fs.files) ∧
  (∀ f ∈ fs.files, ∀ d ∈ fs.dirs, ¬ f <+: d) ∧
  (∀ f ∈ fs.files, ∀ g ∈ fs.files, f <+: g → f = g)

/-- Existence test `path.exists()` against the modelled hierarchy. -/
def existsAt (fs : FS) (p : FPath) : Prop := p ∈ fs.dirs ∨ p ∈ fs.files

instance (fs : FS) (p : FPath) : Decidable (existsAt fs p) := by
  unfold existsAt; infer_instance

/-- Result of a drop-move: silently ignored no-op (source already in the
target directory, or dropped on itself), rejected cycle/self move
("Cannot move a directory into itself or its subdirectories"), rejected
name collision ("already exists in the target location"), or committed
move. -/
inductive MoveOutcome
  | noop
  | invalidMove
  | nameCollision
  | moved
  deriving DecidableEq, Repr

/-- Relocation of one stored path by `shutil.move(source, target_dir /
source.name)`: every path at or below `source` moves below
`target_dir / source.name`; everything else stays. -/
def relocatePath (source targetDir : FPath) (p : FPath) : FPath :=
  if source <+: p then targetDir ++ [source.getLastD ""] ++ p.drop source.length
  else p

/-- The commit step shared by `_move_chat_file` and
`_move_project_directory`: if `target_dir / source.name` already exists
the move is refused with a warning and nothing changes; otherwise
`shutil.move(source, target_dir / source.name)` relocates the node and
everything beneath it. -/
def moveCommit (fs : FS) (source targetDir : FPath) : FS × MoveOutcome :=
  if existsAt fs (targetDir ++ [source.getLastD ""]) then (fs, MoveOutcome.nameCollision)
  else ({ dirs := fs.dirs.map (relocatePath source targetDir),
          files := fs.files.map (relocatePath source targetDir) },
        MoveOutcome.moved)

/-- The validation core of `MainWindow._projects_tree_drop_event` from
the `source_path.parent == target_dir` check on, with `moveCommit` as the
final step: a move into the node's own parent is ignored; for a
directory node, a destination equal to the node or below it is rejected
before anything is touched (`Path.relative_to` succeeding is the
components of `source` being an initial segment of the components of the
destination); the remaining analysis of a source lying inside the
destination always falls through to the commit. -/
def moveNode (fs : FS) (source targetDir : FPath) : FS × MoveOutcome :=
  if source.dropLast = targetDir then (fs, MoveOutcome.noop)
  else if source ∈ fs.dirs then
    if targetDir = source then (fs, MoveOutcome.invalidMove)
    else if source <+: targetDir then (fs, MoveOutcome.invalidMove)
    else if targetDir <+: source then
      if targetDir.dropLast = source.dropLast then moveCommit fs source targetDir
      else if targetDir = source.dropLast then moveCommit fs source targetDir
      else if source <+: targetDir then (fs, MoveOutcome.invalidMove)
      else moveCommit fs source targetDir
    else moveCommit fs source targetDir
  else moveCommit fs source targetDir

/-- Observable shape of the object returned by `bot.invoke(...)` in
`LLMService.get_response`: it may or may not expose a `text` attribute. -/
structure LLMResponse where
  text : Option String
  deriving DecidableEq, Repr

/-- Step 5 of `LLMService.get_response`: each message dict becomes a
`(role, content)` pair for the `llms` library. -/
def format_messages (msgs : List Msg) : List (Role × String) :=
  msgs.map fun m => (m.role, m.content)

/-- The body of the `try` block of `LLMService.get_response`: resolve the
bot and invoke it (any configuration, key, provider or transport failure
is a raised exception, modelled as `Except.error` of its message), then
insist on a `text` attribute. -/
def get_response_body (invoke : String → List (Role × String) → Except String LLMResponse)
    (model_name : String) (messages : List Msg) : Except String String := do
  let resp ← invoke model_name (format_messages messages)
  match resp.text with
  | none => Except.error "LLM response object has no 'text' attribute."
  | some t => Except.ok t

/-- Embedding of `LLMService.get_response`: the whole body is wrapped in `try ...
except Exception as e: return f"Error: {e}"`, so the call itself either
returns the response text or returns the error description; an
`Except.error` in the result would be an exception escaping to the
caller. -/
def get_response (invoke : String → List (Role × String) → Except String LLMResponse)
    (model_name : String) (messages : List Msg) : Except String String :=
  match get_response_body invoke model_name messages with
  | Except.ok t => Except.ok t
  | Except.error e => Except.ok ("Error: " ++ e)

/-- The two signals `LLMWorker` can emit. -/
inductive WorkerSignal
  | finished (content : String)
  | errorSig (message : String)
  deriving DecidableEq, Repr

/-- Embedding of `LLMWorker.run`: call `get_response`; emit `finished` with the result,
or `errorSig` with `f"Error: {e}"` if the call raises. -/
def llm_worker_run (invoke : String → List (Role × String) → Except String LLMResponse)
    (model_name : String) (messages : List Msg) : WorkerSignal :=
  match get_response invoke model_name messages with
  | Except.ok t => WorkerSignal.finished t
  | Except.error e => WorkerSignal.errorSig ("Error: " ++ e)

/-! Helper lemmas shared by the claim theorems. -/

theorem get_message_dict_role (w : Msg) : (get_message_dict w).role = w.role := rfl

theorem get_message_dict_content (w : Msg) : (get_message_dict w).content = w.content := rfl

theorem record_to_widget_role (r : Msg) : (record_to_widget r).role = r.role := rfl

theorem record_to_widget_content (r : Msg) : (record_to_widget r).content = r.content := rfl

theorem record_to_widget_of_wf (m : Msg) (h : MsgWf m) : record_to_widget m = m := by
  obtain ⟨r, c, mo⟩ := m
  obtain ⟨h1, _⟩ := h
  cases r <;> simp_all [record_to_widget, set_message]

theorem get_message_dict_of_wf (m : Msg) (h : MsgWf m) : get_message_dict m = m := by
  obtain ⟨r, c, mo⟩ := m
  obtain ⟨h1, h2⟩ := h
  cases r <;> cases mo <;> simp_all [get_message_dict]

theorem roundtrip_record_of_wf (m : Msg) (h : MsgWf m) :
    get_message_dict (record_to_widget m) = m := by
  rw [record_to_widget_of_wf m h, get_message_dict_of_wf m h]

/-- C8: serializing any message with `get_message_dict` and reading the
record back through the loading path preserves role and content; for a
well-formed message (model stored only on assistant messages and never
the empty string) the round trip is the identity, and a record with no
`model` key deserializes to a widget with no model. -/
theorem serialize_deserialize_roundtrip (m m2 r : Msg) (h : MsgWf m) (hr : r.model = none) :
    record_to_widget (get_message_dict m) = m ∧
    (record_to_widget (get_message_dict m2)).role = m2.role ∧
    (record_to_widget (get_message_dict m2)).content = m2.content ∧
    (record_to_widget r).model = none := by
  refine ⟨?_, rfl, rfl, ?_⟩
  · rw [get_message_dict_of_wf m h, record_to_widget_of_wf m h]
  · obtain ⟨rr, rc, rm⟩ := r
    cases rr <;> simp_all [record_to_widget, set_message]

theorem serialize_deserialize_roundtrip_witness :
    record_to_widget (get_message_dict ⟨Role.assistant, "hello", some "gpt-4o"⟩) =
      ⟨Role.assistant, "hello", some "gpt-4o"⟩ ∧
    (record_to_widget ⟨Role.user, "hi", none⟩).model = none :=
  ⟨(serialize_deserialize_roundtrip ⟨Role.assistant, "hello", some "gpt-4o"⟩
      ⟨Role.user, "x", none⟩ ⟨Role.user, "hi", none⟩ (by constructor <;> decide) rfl).1,
   (serialize_deserialize_roundtrip ⟨Role.assistant, "hello", some "gpt-4o"⟩
      ⟨Role.user, "x", none⟩ ⟨Role.user, "hi", none⟩ (by constructor <;> decide) rfl).2.2.2⟩

/-- C3: whatever the in-memory state — a display holding a thinking
bubble included — every message that `_save_current_chat` persists has
role `system`, `user` or `assistant`, so a save followed by a load never
yields a thinking message. -/
theorem save_then_load_no_thinking (cur display : List Msg) (draft : String) (m : Msg)
    (hm : m ∈ (load_chat (FileContent.msgs (save_current_chat cur display draft))).1) :
    (m.role = Role.system ∨ m.role = Role.user ∨ m.role = Role.assistant) ∧
    m.role ≠ Role.thinking := by
  have hm' : m ∈ save_current_chat cur display draft := hm
  unfold save_current_chat at hm'
  have hroles : m.role = Role.system ∨ m.role = Role.user ∨ m.role = Role.assistant := by
    rcases List.mem_append.mp hm' with h | h
    · rcases List.mem_append.mp h with h1 | h1
      · left
        simpa using (List.mem_filter.mp h1).2
      · obtain ⟨w, hw, rfl⟩ := List.mem_map.mp h1
        right
        rw [get_message_dict_role]
        simpa using (List.mem_filter.mp hw).2
    · right; left
      by_cases hd : pyStrip draft = "" <;> simp [hd] at h
      rw [h]
  refine ⟨hroles, ?_⟩
  rcases hroles with h | h | h <;> simp [h]

theorem save_then_load_no_thinking_witness :
    ((⟨Role.user, "hi", none⟩ : Msg).role = Role.system ∨
      (⟨Role.user, "hi", none⟩ : Msg).role = Role.user ∨
      (⟨Role.user, "hi", none⟩ : Msg).role = Role.assistant) ∧
    (⟨Role.user, "hi", none⟩ : Msg).role ≠ Role.thinking :=
  save_then_load_no_thinking [] [thinkingMsg, ⟨Role.user, "hi", none⟩] "" _ (by decide)

/-- C4 counterexample: loading a file whose JSON payload is the string
`"not a list"` returns the empty sequence but leaves the file exactly as
it was — the file is not overwritten with `[]` by the load. -/
theorem load_chat_notList_leaves_file :
    load_chat (FileContent.notList "not a list") = ([], FileContent.notList "not a list") ∧
    (load_chat (FileContent.notList "not a list")).2 ≠ FileContent.msgs [] := by
  decide

/-- C4 (amended): loading never fails: any file content other than a list
payload yields the empty message sequence; only a missing file is eagerly
rewritten to `[]` by the load itself — an unreadable or non-list file is
left unchanged — and whatever the file held, the next save overwrites it
in full. -/
theorem load_chat_fail_soft (fc : FileContent) :
    ((∀ l, fc ≠ FileContent.msgs l) → (load_chat fc).1 = []) ∧
    (fc = FileContent.missing → (load_chat fc).2 = FileContent.msgs []) ∧
    (fc ≠ FileContent.missing → (load_chat fc).2 = fc) ∧
    (∀ l, fc = FileContent.msgs l → (load_chat fc).1 = l) ∧
    (∀ ms, save_chat (load_chat fc).2 ms = FileContent.msgs ms) := by
  rcases fc <;> simp [load_chat, save_chat]

theorem load_chat_fail_soft_witness :
    (load_chat FileContent.corrupt).1 = [] ∧
    (load_chat FileContent.corrupt).2 = FileContent.corrupt :=
  ⟨(load_chat_fail_soft FileContent.corrupt).1 (fun _ => by simp),
   (load_chat_fail_soft FileContent.corrupt).2.2.1 (by simp)⟩

/-- C10: the generation service call always returns a string and never
lets an exception escape to its caller — on any internal failure the
returned string is `"Error: "` followed by the failure description — so
`LLMWorker.run` always emits the `finished` signal with that string and
its `error` signal path is unreachable. -/
theorem get_response_never_raises
    (invoke : String → List (Role × String) → Except String LLMResponse)
    (model_name : String) (messages : List Msg) :
    get_response invoke model_name messages =
      Except.ok (match get_response_body invoke model_name messages with
        | Except.ok t => t
        | Except.error e => "Error: " ++ e) ∧
    llm_worker_run invoke model_name messages =
      WorkerSignal.finished (match get_response_body invoke model_name messages with
        | Except.ok t => t
        | Except.error e => "Error: " ++ e) := by
  unfold llm_worker_run get_response
  cases hb : get_response_body invoke model_name messages <;> simp

theorem scanFrom_eq_some_spec {r : Role} :
    ∀ (l : List Msg) (s j : Nat), scanFrom r l s = some j →
      s ≤ j ∧ ∃ hj : j < l.length, (l.get ⟨j, hj⟩).role = r ∧
        ∀ k, s ≤ k → k < j → ∀ hk : k < l.length, (l.get ⟨k, hk⟩).role ≠ r
  | [], s, j => by simp [scanFrom]
  | m :: ms, 0, j => by
      intro h
      by_cases hm : m.role = r
      · simp [scanFrom, hm] at h
        subst h
        exact ⟨Nat.le_refl 0, Nat.succ_pos _, hm,
          fun k hk1 hk2 => absurd hk2 (Nat.not_lt.mpr hk1)⟩
      · simp only [scanFrom, if_neg hm] at h
        cases hsc : scanFrom r ms 0 with
        | none => rw [hsc] at h; simp at h
        | some j' =>
            rw [hsc] at h
            simp only [Option.map_some'] at h
            obtain ⟨_, hj', hr', hbefore⟩ := scanFrom_eq_some_spec ms 0 j' hsc
            have hjeq := Option.some.inj h
            subst hjeq
            refine ⟨Nat.zero_le _, Nat.succ_lt_succ hj', hr', ?_⟩
            intro k _ hk2 hk
            cases k with
            | zero => simpa using hm
            | succ k' =>
                exact hbefore k' (Nat.zero_le _) (Nat.lt_of_succ_lt_succ hk2)
                  (Nat.lt_of_succ_lt_succ hk)
  | m :: ms, s + 1, j => by
      intro h
      simp only [scanFrom] at h
      cases hsc : scanFrom r ms s with
      | none => rw [hsc] at h; simp at h
      | some j' =>
          rw [hsc] at h
          simp only [Option.map_some'] at h
          obtain ⟨hle, hj', hr', hbefore⟩ := scanFrom_eq_some_spec ms s j' hsc
          have hjeq := Option.some.inj h
          subst hjeq
          refine ⟨Nat.succ_le_succ hle, Nat.succ_lt_succ hj', hr', ?_⟩
          intro k hk1 hk2 hk
          cases k with
          | zero => exact absurd hk1 (Nat.not_succ_le_zero s)
          | succ k' =>
              exact hbefore k' (Nat.le_of_succ_le_succ hk1) (Nat.lt_of_succ_lt_succ hk2)
                (Nat.lt_of_succ_lt_succ hk)

theorem scanFrom_eq_none_spec {r : Role} :
    ∀ (l : List Msg) (s : Nat), scanFrom r l s = none →
      ∀ k, s ≤ k → ∀ hk : k < l.length, (l.get ⟨k, hk⟩).role ≠ r
  | [], _ => by intro _ k _ hk; simp at hk
  | m :: ms, 0 => by
      intro h k _ hk
      by_cases hm : m.role = r
      · simp [scanFrom, hm] at h
      · simp only [scanFrom, if_neg hm, Option.map_eq_none'] at h
        cases k with
        | zero => simpa using hm
        | succ k' =>
            exact scanFrom_eq_none_spec ms 0 h k' (Nat.zero_le _) (Nat.lt_of_succ_lt_succ hk)
  | m :: ms, s + 1 => by
      intro h k hk1 hk
      simp only [scanFrom, Option.map_eq_none'] at h
      cases k with
      | zero => exact absurd hk1 (Nat.not_succ_le_zero s)
      | succ k' =>
          exact scanFrom_eq_none_spec ms s h k' (Nat.le_of_succ_le_succ hk1)
            (Nat.lt_of_succ_lt_succ hk)

theorem eraseIdx_eraseIdx_of_lt (l : List Msg) (i j : Nat) (hij : i < j) (hj : j < l.length) :
    (l.eraseIdx j).eraseIdx i =
      l.take i ++ (l.drop (i + 1)).take (j - (i + 1)) ++ l.drop (j + 1) := by
  rw [List.eraseIdx_eq_take_drop_succ, List.eraseIdx_eq_take_drop_succ,
    List.take_append_eq_append_take, List.drop_append_eq_append_drop]
  have hlen : (l.take j).length = j := by
    simp [List.length_take, Nat.min_eq_left (Nat.le_of_lt hj)]
  rw [hlen]
  have h1 : i - j = 0 := Nat.sub_eq_zero_of_le (Nat.le_of_lt hij)
  have h2 : i + 1 - j = 0 := Nat.sub_eq_zero_of_le hij
  rw [h1, h2, List.take_zero, List.drop_zero, List.append_nil, List.take_take,
    Nat.min_eq_left (Nat.le_of_lt hij), List.drop_take, List.append_assoc]

/-- C5: the cut-pair operation on a user message at index `i` removes that
message together with the first assistant message at an index above `i`
(the assistant message is removed first, so the lower index does not
shift), leaving the prefix before `i`, the slice between the two removed
positions and the suffix after the assistant message intact and in
order; when no assistant message follows, only the user message is
removed. -/
theorem cut_pair_spec (l : List Msg) (i : Nat) (hi : i < l.length)
    (hrole : (l.get ⟨i, hi⟩).role = Role.user) :
    (∀ j, scanFrom Role.assistant l (i + 1) = some j →
      i < j ∧ ∃ hj : j < l.length, (l.get ⟨j, hj⟩).role = Role.assistant ∧
        (∀ k, i < k → k < j → ∀ hk : k < l.length, (l.get ⟨k, hk⟩).role ≠ Role.assistant) ∧
        cut_pair l i = l.take i ++ (l.drop (i + 1)).take (j - (i + 1)) ++ l.drop (j + 1)) ∧
    (scanFrom Role.assistant l (i + 1) = none →
      (∀ k, i < k → ∀ hk : k < l.length, (l.get ⟨k, hk⟩).role ≠ Role.assistant) ∧
      cut_pair l i = l.take i ++ l.drop (i + 1)) := by
  constructor
  · intro j hscan
    obtain ⟨hle, hj, hr, hbefore⟩ := scanFrom_eq_some_spec l (i + 1) j hscan
    have hij : i < j := Nat.lt_of_succ_le hle
    refine ⟨hij, hj, hr, ?_, ?_⟩
    · intro k hk1 hk2 hk
      exact hbefore k (Nat.succ_le_of_lt hk1) hk2 hk
    · unfold cut_pair
      rw [hscan]
      exact eraseIdx_eraseIdx_of_lt l i j hij hj
  · intro hscan
    refine ⟨?_, ?_⟩
    · intro k hk1 hk
      exact scanFrom_eq_none_spec l (i + 1) hscan k (Nat.succ_le_of_lt hk1) hk
    · unfold cut_pair
      rw [hscan]
      exact List.eraseIdx_eq_take_drop_succ l i

theorem scanBackUser_eq_some_spec (l : List Msg) :
    ∀ (i j : Nat), scanBackUser l i = some j →
      j < i ∧ ∃ hj : j < l.length, (l.get ⟨j, hj⟩).role = Role.user ∧
        ∀ k, j < k → k < i → ∀ hk : k < l.length, (l.get ⟨k, hk⟩).role ≠ Role.user
  | 0, j => by simp [scanBackUser]
  | i + 1, j => by
      intro h
      unfold scanBackUser at h
      cases hg : l.get? i with
      | some w =>
          rw [hg] at h
          dsimp only at h
          by_cases hw : w.role = Role.user
          · rw [if_pos hw] at h
            obtain rfl := Option.some.inj h
            obtain ⟨hjl, hget⟩ := List.get?_eq_some.mp hg
            refine ⟨Nat.lt_succ_self _, hjl, by rw [hget]; exact hw, ?_⟩
            intro k hk1 hk2 _
            exfalso
            omega
          · rw [if_neg hw] at h
            obtain ⟨hji, hjl, hrole, hafter⟩ := scanBackUser_eq_some_spec l i j h
            refine ⟨Nat.lt_succ_of_lt hji, hjl, hrole, ?_⟩
            intro k hk1 hk2 hk
            rcases Nat.lt_or_ge k i with hki | hki
            · exact hafter k hk1 hki hk
            · have hkeq : k = i := Nat.le_antisymm (Nat.le_of_lt_succ hk2) hki
              subst hkeq
              have hget : l.get ⟨k, hk⟩ = w := by
                have := List.get?_eq_get hk
                rw [hg] at this
                exact (Option.some.inj this).symm
              rw [hget]
              exact hw
      | none =>
          rw [hg] at h
          dsimp only at h
          obtain ⟨hji, hjl, hrole, hafter⟩ := scanBackUser_eq_some_spec l i j h
          refine ⟨Nat.lt_succ_of_lt hji, hjl, hrole, ?_⟩
          intro k hk1 hk2 hk
          rcases Nat.lt_or_ge k i with hki | hki
          · exact hafter k hk1 hki hk
          · have hkeq : k = i := Nat.le_antisymm (Nat.le_of_lt_succ hk2) hki
            subst hkeq
            have := List.get?_eq_none.mp hg
            exact absurd hk (Nat.not_lt.mpr this)

theorem filter_ua_eq_self (l : List Msg)
    (h : ∀ w ∈ l, w.role = Role.user ∨ w.role = Role.assistant) :
    (l.filter fun w => w.role = Role.user ∨ w.role = Role.assistant) = l := by
  rw [List.filter_eq_self]
  intro a ha
  simpa using h a ha

theorem build_messages_list_eq (cur display : List Msg) (n : Nat)
    (h : ∀ w ∈ display, w.role = Role.user ∨ w.role = Role.assistant) :
    build_messages_list cur display n =
      (cur.filter fun m => m.role = Role.system) ++ (display.take n).map get_message_dict := by
  unfold build_messages_list
  rw [filter_ua_eq_self]
  intro w hw
  exact h w (List.mem_of_mem_take hw)

theorem filter_ua_set_thinking :
    ∀ (l : List Msg) (i : Nat), i < l.length →
      (∀ w ∈ l, w.role = Role.user ∨ w.role = Role.assistant) →
      ((l.set i thinkingMsg).filter fun w =>
        w.role = Role.user ∨ w.role = Role.assistant) = l.eraseIdx i
  | [], i => by simp
  | m :: ms, 0 => by
      intro _ h
      simp only [List.set]
      rw [List.filter_cons_of_neg (by simp [thinkingMsg, set_message])]
      rw [filter_ua_eq_self ms (fun w hw => h w (List.mem_cons_of_mem m hw))]
      rfl
  | m :: ms, i + 1 => by
      intro hi h
      simp only [List.set]
      rw [List.filter_cons_of_pos (by simpa using h m (List.mem_cons_self m ms))]
      rw [filter_ua_set_thinking ms i (Nat.lt_of_succ_lt_succ hi)
        (fun w hw => h w (List.mem_cons_of_mem m hw))]
      rfl

/-- C6: regenerating the assistant message at index `i` with an empty
refine comment builds the generation context as exactly the system
messages followed by the serialized record of every displayed message up
to and including the nearest user message preceding `i` (everything after
that user message is excluded), and on completion the assistant message
at `i` is replaced in place by the result. -/
theorem regenerate_empty_context_spec (tmpl res : String) (mo : Option String)
    (st : UiState) (i j : Nat) (hfl : st.inFlight = false)
    (hi : i < st.display.length)
    (ha : (st.display.get ⟨i, hi⟩).role = Role.assistant)
    (hj : scanBackUser st.display i = some j)
    (hroles : ∀ w ∈ st.display, w.role = Role.user ∨ w.role = Role.assistant) :
    j < i ∧
    (∃ hjl : j < st.display.length, (st.display.get ⟨j, hjl⟩).role = Role.user) ∧
    (∀ k, j < k → k < i → ∀ hk : k < st.display.length,
      (st.display.get ⟨k, hk⟩).role ≠ Role.user) ∧
    (regenerate tmpl st i "").2 =
      Outcome.accepted ((st.cur.filter fun m => m.role = Role.system)
        ++ (st.display.take (j + 1)).map get_message_dict) ∧
    (complete (regenerate tmpl st i "").1 res mo).display =
      st.display.set i (set_message Role.assistant res mo) := by
  obtain ⟨hji, hjl, hrole, hafter⟩ := scanBackUser_eq_some_spec st.display i j hj
  have hw : st.display.get? i = some (st.display.get ⟨i, hi⟩) := List.get?_eq_get hi
  have hreg : regenerate tmpl st i "" =
      ({ st with display := st.display.set i thinkingMsg, inFlight := true,
                 pending := some i },
       Outcome.accepted (regenerate_context st.cur st.display i)) := by
    unfold regenerate
    rw [hw]
    dsimp only
    rw [if_pos ha, hfl]
    simp
  refine ⟨hji, ⟨hjl, hrole⟩, hafter, ?_, ?_⟩
  · rw [hreg]
    unfold regenerate_context
    rw [hj]
    dsimp only
    rw [build_messages_list_eq st.cur st.display (j + 1) hroles]
  · rw [hreg]
    unfold complete doSave
    simp [List.set_set]

theorem regenerate_empty_context_spec_witness :
    (regenerate "T"
      ⟨[⟨Role.user, "u1", none⟩, ⟨Role.assistant, "a1", none⟩,
        ⟨Role.user, "u2", none⟩, ⟨Role.assistant, "a2", none⟩],
       "", [⟨Role.system, "s", none⟩], FileContent.msgs [], false, none⟩ 3 "").2 =
      Outcome.accepted [⟨Role.system, "s", none⟩, ⟨Role.user, "u1", none⟩,
        ⟨Role.assistant, "a1", none⟩, ⟨Role.user, "u2", none⟩] := by
  have h := (regenerate_empty_context_spec "T" "res" none
    ⟨[⟨Role.user, "u1", none⟩, ⟨Role.assistant, "a1", none⟩,
      ⟨Role.user, "u2", none⟩, ⟨Role.assistant, "a2", none⟩],
     "", [⟨Role.system, "s", none⟩], FileContent.msgs [], false, none⟩ 3 2
    rfl (by decide) (by decide) (by decide) (by decide)).2.2.2.1
  rw [h]
  rfl

/-- C7: regenerating the assistant message at index `i` with a non-empty
refine comment builds the generation context as the system messages, the
serialized record of every displayed message up to and including the
assistant message at `i` with its current content, and one final
synthetic user turn `template ++ "\n\n" ++ comment`; the bubble at `i`
becomes a thinking placeholder, and a save of the resulting document is
assembled only from the pre-existing widgets (position `i` excluded) and
the draft, so the synthetic turn is never persisted. -/
theorem regenerate_refine_context_spec (tmpl comment : String) (st : UiState) (i : Nat)
    (hfl : st.inFlight = false) (hi : i < st.display.length)
    (ha : (st.display.get ⟨i, hi⟩).role = Role.assistant)
    (hc : comment ≠ "")
    (hroles : ∀ w ∈ st.display, w.role = Role.user ∨ w.role = Role.assistant) :
    (regenerate tmpl st i comment).2 =
      Outcome.accepted ((st.cur.filter fun m => m.role = Role.system)
        ++ (st.display.take (i + 1)).map get_message_dict
        ++ [refine_turn tmpl comment]) ∧
    (regenerate tmpl st i comment).1.display = st.display.set i thinkingMsg ∧
    (∀ d, save_current_chat st.cur (regenerate tmpl st i comment).1.display d =
      (st.cur.filter fun m => m.role = Role.system)
        ++ (st.display.eraseIdx i).map get_message_dict
        ++ (if pyStrip d = "" then [] else [⟨Role.user, pyStrip d, none⟩])) ∧
    ((∀ w ∈ st.display, get_message_dict w ≠ refine_turn tmpl comment) →
      ∀ d, pyStrip d ≠ (refine_turn tmpl comment).content →
        refine_turn tmpl comment ∉
          save_current_chat st.cur (regenerate tmpl st i comment).1.display d) := by
  have hw : st.display.get? i = some (st.display.get ⟨i, hi⟩) := List.get?_eq_get hi
  have hreg : regenerate tmpl st i comment =
      ({ st with display := st.display.set i thinkingMsg, inFlight := true,
                 pending := some i },
       Outcome.accepted (build_messages_list st.cur st.display (i + 1)
         ++ [refine_turn tmpl comment])) := by
    unfold regenerate
    rw [hw]
    dsimp only
    rw [if_pos ha, hfl]
    simp [hc]
  have hsave : ∀ d, save_current_chat st.cur (regenerate tmpl st i comment).1.display d =
      (st.cur.filter fun m => m.role = Role.system)
        ++ (st.display.eraseIdx i).map get_message_dict
        ++ (if pyStrip d = "" then [] else [⟨Role.user, pyStrip d, none⟩]) := by
    intro d
    rw [hreg]
    unfold save_current_chat
    rw [filter_ua_set_thinking st.display i hi hroles]
  refine ⟨?_, ?_, hsave, ?_⟩
  · rw [hreg]
    dsimp only
    rw [build_messages_list_eq st.cur st.display (i + 1) hroles]
  · rw [hreg]
  · intro hnw d hnd hmem
    rw [hsave d] at hmem
    rcases List.mem_append.mp hmem with hm | hm
    · rcases List.mem_append.mp hm with hm1 | hm1
      · have hs := (List.mem_filter.mp hm1).2
        simp [refine_turn] at hs
      · obtain ⟨w, hw1, hw2⟩ := List.mem_map.mp hm1
        have hwd : w ∈ st.display := by
          rw [List.eraseIdx_eq_take_drop_succ] at hw1
          rcases List.mem_append.mp hw1 with h1 | h1
          · exact List.mem_of_mem_take h1
          · exact List.mem_of_mem_drop h1
        exact hnw w hwd hw2
    · by_cases hdd : pyStrip d = "" <;> simp [hdd] at hm
      exact hnd (by rw [hm])

theorem regenerate_refine_context_spec_witness :
    (regenerate "T"
      ⟨[⟨Role.user, "u1", none⟩, ⟨Role.assistant, "a1", none⟩,
        ⟨Role.user, "u2", none⟩, ⟨Role.assistant, "a2", none⟩],
       "", [⟨Role.system, "s", none⟩], FileContent.msgs [], false, none⟩ 1 "c").2 =
      Outcome.accepted [⟨Role.system, "s", none⟩, ⟨Role.user, "u1", none⟩,
        ⟨Role.assistant, "a1", none⟩, ⟨Role.user, "T\n\nc", none⟩] := by
  have h := (regenerate_refine_context_spec "T" "c"
    ⟨[⟨Role.user, "u1", none⟩, ⟨Role.assistant, "a1", none⟩,
      ⟨Role.user, "u2", none⟩, ⟨Role.assistant, "a2", none⟩],
     "", [⟨Role.system, "s", none⟩], FileContent.msgs [], false, none⟩ 1
    rfl (by decide) (by decide) (by decide) (by decide)).1
  rw [h]
  rfl

theorem cut_pair_spec_witness :
    cut_pair [⟨Role.user, "q", none⟩, ⟨Role.user, "x", none⟩,
      ⟨Role.assistant, "a", none⟩, ⟨Role.user, "y", none⟩] 0 =
      [⟨Role.user, "x", none⟩, ⟨Role.user, "y", none⟩] := by
  have h := (cut_pair_spec [⟨Role.user, "q", none⟩, ⟨Role.user, "x", none⟩,
    ⟨Role.assistant, "a", none⟩, ⟨Role.user, "y", none⟩] 0 (by decide) (by decide)).1 2 (by decide)
  obtain ⟨-, -, -, -, heq⟩ := h
  rw [heq]
  rfl

/-- C1: while a generation request is in flight (`_llm_call_in_progress`
set), a further send, regenerate or regenerate-from-user returns `Busy`
with the whole state — display, draft, `current_messages`, file, flag and
pending bubble — unchanged: nothing is appended and no thinking
placeholder is shown; completion of the outstanding request (the result
text being a response or an error description) always clears the flag,
after which a send with a non-empty stripped draft is accepted. -/
theorem single_flight_spec (st : UiState) (res : String) (mo : Option String)
    (hb : st.inFlight = true) :
    send_message st = (st, Outcome.busy) ∧
    (∀ tmpl i comment w, st.display.get? i = some w → w.role = Role.assistant →
      regenerate tmpl st i comment = (st, Outcome.busy)) ∧
    (∀ i j w, st.display.get? i = some w → w.role = Role.user →
      scanFrom Role.assistant st.display (i + 1) = some j →
      regenerate_from_user st i = (st, Outcome.busy)) ∧
    (complete st res mo).inFlight = false ∧
    (complete st res mo).draft = st.draft ∧
    (pyStrip st.draft ≠ "" →
      ∃ req, (send_message (complete st res mo)).2 = Outcome.accepted req) := by
  have h4 : (complete st res mo).inFlight = false := by
    unfold complete
    cases st.pending <;> rfl
  have h5 : (complete st res mo).draft = st.draft := by
    unfold complete doSave
    cases st.pending <;> rfl
  refine ⟨?_, ?_, ?_, h4, h5, ?_⟩
  · unfold send_message
    rw [hb]
    rfl
  · intro tmpl i comment w hg hrole
    unfold regenerate
    rw [hg]
    dsimp only
    rw [if_pos hrole, hb]
    rfl
  · intro i j w hg hrole hscan
    unfold regenerate_from_user
    rw [hg]
    dsimp only
    rw [if_pos hrole, hscan]
    dsimp only
    rw [hb]
    rfl
  · intro hd
    unfold send_message
    rw [h4, h5, if_neg (by simp), if_neg hd]
    exact ⟨_, rfl⟩

theorem single_flight_spec_witness :
    send_message
      ⟨[⟨Role.user, "hi", none⟩, ⟨Role.assistant, "a", none⟩], "next",
       [], FileContent.msgs [], true, some 1⟩ =
      (⟨[⟨Role.user, "hi", none⟩, ⟨Role.assistant, "a", none⟩], "next",
        [], FileContent.msgs [], true, some 1⟩, Outcome.busy) ∧
    regenerate "T"
      ⟨[⟨Role.user, "hi", none⟩, ⟨Role.assistant, "a", none⟩], "next",
       [], FileContent.msgs [], true, some 1⟩ 1 "c" =
      (⟨[⟨Role.user, "hi", none⟩, ⟨Role.assistant, "a", none⟩], "next",
        [], FileContent.msgs [], true, some 1⟩, Outcome.busy) ∧
    regenerate_from_user
      ⟨[⟨Role.user, "hi", none⟩, ⟨Role.assistant, "a", none⟩], "next",
       [], FileContent.msgs [], true, some 1⟩ 0 =
      (⟨[⟨Role.user, "hi", none⟩, ⟨Role.assistant, "a", none⟩], "next",
        [], FileContent.msgs [], true, some 1⟩, Outcome.busy) ∧
    (complete
      ⟨[⟨Role.user, "hi", none⟩, ⟨Role.assistant, "a", none⟩], "next",
       [], FileContent.msgs [], true, some 1⟩ "done" none).inFlight = false := by
  have h := single_flight_spec
    ⟨[⟨Role.user, "hi", none⟩, ⟨Role.assistant, "a", none⟩], "next",
     [], FileContent.msgs [], true, some 1⟩ "done" none rfl
  exact ⟨h.1, h.2.1 "T" 1 "c" ⟨Role.assistant, "a", none⟩ rfl rfl,
    h.2.2.1 0 1 ⟨Role.user, "hi", none⟩ rfl rfl (by decide), h.2.2.2.1⟩

/-- C2: dropping a node onto a destination directory in the projects
tree: a destination equal to the node or lying below it is rejected with
the invalid-move warning and the hierarchy is untouched (the rejection
happens before any move is committed); a move into the node's own
current parent is permitted and is a no-op; otherwise, when no item
named like the node exists at the destination, the move commits and
relocates the node (and everything beneath it) under the destination. -/
theorem move_node_spec (fs : FS) (source targetDir : FPath)
    (hwf : FS.wf fs) (hsne : source ≠ [])
    (hsrc : source ∈ fs.dirs ∨ source ∈ fs.files)
    (htgt : targetDir ∈ fs.dirs) :
    ((targetDir = source ∨ source <+: targetDir) →
      moveNode fs source targetDir = (fs, MoveOutcome.invalidMove)) ∧
    (targetDir = source.dropLast →
      moveNode fs source targetDir = (fs, MoveOutcome.noop)) ∧
    (targetDir ≠ source → ¬ source <+: targetDir → targetDir ≠ source.dropLast →
      ¬ existsAt fs (targetDir ++ [source.getLastD ""]) →
      moveNode fs source targetDir =
        ({ dirs := fs.dirs.map (relocatePath source targetDir),
           files := fs.files.map (relocatePath source targetDir) },
         MoveOutcome.moved) ∧
      relocatePath source targetDir source = targetDir ++ [source.getLastD ""] ∧
      (source ∈ fs.dirs →
        targetDir ++ [source.getLastD ""] ∈ fs.dirs.map (relocatePath source targetDir)) ∧
      (source ∈ fs.files →
        targetDir ++ [source.getLastD ""] ∈ fs.files.map (relocatePath source targetDir))) := by
  have hlen : 0 < source.length := List.length_pos.mpr hsne
  have hdrop_ne : source.dropLast ≠ source := by
    intro he
    have := congrArg List.length he
    rw [List.length_dropLast] at this
    omega
  have hreloc : relocatePath source targetDir source = targetDir ++ [source.getLastD ""] := by
    unfold relocatePath
    rw [if_pos (List.prefix_refl source), List.drop_length, List.append_nil]
  refine ⟨?_, ?_, ?_⟩
  · intro hinv
    have hfirst : ¬ source.dropLast = targetDir := by
      intro he
      rcases hinv with h1 | h2
      · exact hdrop_ne (he.trans h1)
      · have hle := h2.length_le
        rw [← he, List.length_dropLast] at hle
        omega
    have hsd : source ∈ fs.dirs := by
      rcases hsrc with h | h
      · exact h
      · exfalso
        rcases hinv with h1 | h2
        · exact hwf.2.1 targetDir htgt (h1 ▸ h)
        · exact hwf.2.2.1 source h targetDir htgt h2
    unfold moveNode
    rw [if_neg hfirst, if_pos hsd]
    by_cases heq : targetDir = source
    · rw [if_pos heq]
    · rcases hinv with h1 | h2
      · exact absurd h1 heq
      · rw [if_neg heq, if_pos h2]
  · intro h
    unfold moveNode
    rw [if_pos h.symm]
  · intro h1 h2 h3 h4
    have hfirst : ¬ source.dropLast = targetDir := fun he => h3 he.symm
    have hcommit : moveCommit fs source targetDir =
        ({ dirs := fs.dirs.map (relocatePath source targetDir),
           files := fs.files.map (relocatePath source targetDir) },
         MoveOutcome.moved) := by
      unfold moveCommit
      rw [if_neg h4]
    have hmove : moveNode fs source targetDir = moveCommit fs source targetDir := by
      unfold moveNode
      rw [if_neg hfirst]
      by_cases hsd : source ∈ fs.dirs
      · rw [if_pos hsd, if_neg h1, if_neg h2]
        by_cases hts : targetDir <+: source
        · rw [if_pos hts]
          by_cases hsib : targetDir.dropLast = source.dropLast
          · rw [if_pos hsib]
          · rw [if_neg hsib, if_neg h3, if_neg h2]
        · rw [if_neg hts]
      · rw [if_neg hsd]
    refine ⟨hmove.trans hcommit, hreloc, ?_, ?_⟩
    · intro hmem
      exact hreloc ▸ List.mem_map_of_mem (relocatePath source targetDir) hmem
    · intro hmem
      exact hreloc ▸ List.mem_map_of_mem (relocatePath source targetDir) hmem

theorem move_node_spec_witness :
    moveNode ⟨[[], ["a"], ["b"]], [["a", "c.json"]]⟩ ["a"] ["a"] =
      (⟨[[], ["a"], ["b"]], [["a", "c.json"]]⟩, MoveOutcome.invalidMove) ∧
    moveNode ⟨[[], ["a"], ["b"]], [["a", "c.json"]]⟩ ["a"] [] =
      (⟨[[], ["a"], ["b"]], [["a", "c.json"]]⟩, MoveOutcome.noop) ∧
    moveNode ⟨[[], ["a"], ["b"]], [["a", "c.json"]]⟩ ["a"] ["b"] =
      (⟨[[], ["b", "a"], ["b"]], [["b", "a", "c.json"]]⟩, MoveOutcome.moved) := by
  refine ⟨?_, ?_, ?_⟩
  · exact (move_node_spec ⟨[[], ["a"], ["b"]], [["a", "c.json"]]⟩ ["a"] ["a"]
      (by refine ⟨by decide, ?_, ?_, ?_⟩ <;> decide) (by decide)
      (Or.inl (by decide)) (by decide)).1 (Or.inl rfl)
  · exact (move_node_spec ⟨[[], ["a"], ["b"]], [["a", "c.json"]]⟩ ["a"] []
      (by refine ⟨by decide, ?_, ?_, ?_⟩ <;> decide) (by decide)
      (Or.inl (by decide)) (by decide)).2.1 (by decide)
  · have h := (move_node_spec ⟨[[], ["a"], ["b"]], [["a", "c.json"]]⟩ ["a"] ["b"]
      (by refine ⟨by decide, ?_, ?_, ?_⟩ <;> decide) (by decide)
      (Or.inl (by decide)) (by decide)).2.2 (by decide) (by decide) (by decide) (by decide)
    rw [h.1]
    rfl

theorem role_ua_of_not_sys_thinking (m : Msg)
    (h1 : m.role ≠ Role.system) (h2 : m.role ≠ Role.thinking) :
    m.role = Role.user ∨ m.role = Role.assistant := by
  cases h : m.role <;> simp_all

/-- C9 counterexample: the document holding the single record `{"role": "user", "content": " hi "}`
ends in a user message that is neither empty nor whitespace-only, yet
loading it and saving again yields `[{"role": "user", "content": "hi"}]`:
the trailing user message comes back whitespace-trimmed, so load followed
by save does not preserve the document exactly. -/
theorem load_then_save_not_exact :
    load_then_save [⟨Role.user, " hi ", none⟩] = [⟨Role.user, "hi", none⟩] ∧
    load_then_save [⟨Role.user, " hi ", none⟩] ≠ [⟨Role.user, " hi ", none⟩] ∧
    pyStrip " hi " ≠ "" := by
  decide

/-- C9 (amended): for a well-formed persisted document — system messages
forming a prefix, no thinking records, models stored only on assistant
records and never empty — whose last message has role `user`, loading
does not place that message in the displayed sequence but moves its
content into the draft input, and the next save re-appends the draft's
whitespace-trimmed text as the final user message; so load followed by
save preserves the document except that the trailing user message is
replaced by its whitespace-trimmed content, disappearing entirely when
that content is empty or whitespace-only. -/
theorem load_then_save_spec (S R : List Msg) (u : Msg)
    (hS : ∀ m ∈ S, m.role = Role.system)
    (hR : ∀ m ∈ R ++ [u], m.role ≠ Role.system ∧ m.role ≠ Role.thinking ∧ MsgWf m)
    (hu : u.role = Role.user) :
    (load_chat_from_file ((S ++ R) ++ [u])).2.1 = u.content ∧
    (load_chat_from_file ((S ++ R) ++ [u])).1 = R.map record_to_widget ∧
    load_then_save ((S ++ R) ++ [u]) =
      (S ++ R) ++ (if pyStrip u.content = "" then []
                   else [⟨Role.user, pyStrip u.content, none⟩]) := by
  have hlast : ((S ++ R) ++ [u]).getLast? = some u := List.getLast?_concat _
  have hdrop : ((S ++ R) ++ [u]).dropLast = S ++ R := List.dropLast_concat
  have hRroles : ∀ m ∈ R, m.role ≠ Role.system ∧ m.role ≠ Role.thinking ∧ MsgWf m :=
    fun m hm => hR m (List.mem_append_left _ hm)
  have hdraft : (load_chat_from_file ((S ++ R) ++ [u])).2.1 = u.content := by
    unfold load_chat_from_file
    dsimp only
    rw [hlast]
    dsimp only
    rw [if_pos hu]
  have hdisp : (load_chat_from_file ((S ++ R) ++ [u])).1 = R.map record_to_widget := by
    unfold load_chat_from_file
    dsimp only
    rw [hlast]
    dsimp only
    rw [if_pos hu, hdrop, List.filter_append]
    rw [List.filter_eq_nil_iff.mpr (fun a ha => by simp [hS a ha])]
    rw [List.filter_eq_self.mpr (fun a ha => by simp [(hRroles a ha).1])]
    rw [List.nil_append]
  have hsys : (((S ++ R) ++ [u]).filter fun m => m.role = Role.system) = S := by
    rw [List.filter_append, List.filter_append]
    rw [List.filter_eq_self.mpr (fun a ha => by simp [hS a ha])]
    rw [List.filter_eq_nil_iff.mpr (fun a ha => by simp [(hRroles a ha).1])]
    rw [List.filter_eq_nil_iff.mpr (fun a ha => by
      rw [List.mem_singleton.mp ha]
      simp [hu])]
    simp
  have hwidgets : (((R.map record_to_widget).filter fun w =>
      w.role = Role.user ∨ w.role = Role.assistant).map get_message_dict) = R := by
    rw [List.filter_map]
    have hf : (R.filter ((fun w =>
        decide (w.role = Role.user ∨ w.role = Role.assistant)) ∘ record_to_widget)) = R := by
      rw [List.filter_eq_self]
      intro a ha
      obtain ⟨h1, h2, _⟩ := hRroles a ha
      have hua := role_ua_of_not_sys_thinking a h1 h2
      simp only [Function.comp_apply, record_to_widget_role, decide_eq_true_eq]
      exact hua
    rw [hf, List.map_map]
    have hid : ∀ a ∈ R, (get_message_dict ∘ record_to_widget) a = id a :=
      fun a ha => roundtrip_record_of_wf a (hRroles a ha).2.2
    rw [List.map_congr_left hid, List.map_id]
  refine ⟨hdraft, hdisp, ?_⟩
  unfold load_then_save
  dsimp only
  rw [hdisp, hdraft]
  have hcur : (load_chat_from_file ((S ++ R) ++ [u])).2.2 = (S ++ R) ++ [u] := rfl
  rw [hcur]
  unfold save_current_chat
  rw [hsys, hwidgets, List.append_assoc]

theorem load_then_save_spec_witness :
    load_then_save (([⟨Role.system, "s", none⟩] ++
        [⟨Role.user, "a", none⟩, ⟨Role.assistant, "b", some "m"⟩]) ++
      [⟨Role.user, " x ", none⟩]) =
      [⟨Role.system, "s", none⟩, ⟨Role.user, "a", none⟩,
       ⟨Role.assistant, "b", some "m"⟩, ⟨Role.user, "x", none⟩] := by
  have h := (load_then_save_spec [⟨Role.system, "s", none⟩]
    [⟨Role.user, "a", none⟩, ⟨Role.assistant, "b", some "m"⟩] ⟨Role.user, " x ", none⟩
    (by decide) (by decide) rfl).2.2
  rw [h]
  decide

end AnyChat
